import Mathlib

/-!
Verification development for the Ankicard repository: a browser front-end
that turns user notes into Anki-style flashcards.  The definitions below
shallowly embed the text-extraction engine (`src/App.tsx`), the regex
preview segmentation (`src/components/InputPanel.tsx`), the output
validator (`src/components/OutputPanel.tsx`), and the prompt builder and
error mapping (`src/services/geminiService.ts`).  Text is modelled as
`List Char`; the JavaScript regular-expression engine is modelled by an
executable backtracking matcher with JavaScript priority semantics
(leftmost, first-alternative, lazy/greedy repetition order), capture of
group 1, and `matchAll`-style global scanning.
-/

namespace Ankicard

/-! ## Basic string utilities mirroring the JavaScript ones -/

/-- JavaScript whitespace as used by `String.prototype.trim` (the common
characters: space, tab, line feed, carriage return, vertical tab, form
feed, no-break space). -/
def isWS (c : Char) : Bool :=
  c = ' ' || c = '\t' || c = '\n' || c = '\r' || c = '\x0b' || c = '\x0c' || c = ' '

/-- `s.trim() !== ''` in JavaScript: the text holds at least one
non-whitespace character. -/
def hasNonWS (s : List Char) : Bool :=
  s.any (fun c => !(isWS c))

/-- `String.prototype.trim`: strip leading and trailing whitespace. -/
def jsTrim (s : List Char) : List Char :=
  ((s.dropWhile isWS).reverse.dropWhile isWS).reverse

/-- Does `hay` start with `needle`? (`String.prototype.startsWith`). -/
def startsWithL : List Char → List Char → Bool
  | [], _ => true
  | _ :: _, [] => false
  | n :: ns, h :: hs => n = h && startsWithL ns hs

/-- Does `hay` contain `needle` as a contiguous run?
(case-sensitive substring containment, `String.prototype.includes`). -/
def containsSeq (needle : List Char) : List Char → Bool
  | [] => startsWithL needle []
  | h :: hs => startsWithL needle (h :: hs) || containsSeq needle hs

/-- Fuel-driven worker for `jsSplitOn`; fuel bounds the scan length. -/
def jsSplitOnF (sep : List Char) : Nat → List Char → List Char → List (List Char)
  | 0, acc, _ => [acc.reverse]
  | _ + 1, acc, [] => [acc.reverse]
  | f + 1, acc, c :: rest =>
      if startsWithL sep (c :: rest) then
        acc.reverse :: jsSplitOnF sep f [] ((c :: rest).drop sep.length)
      else
        jsSplitOnF sep f (c :: acc) rest

/-- `String.prototype.split` with a non-empty plain-string separator:
cut at each leftmost non-overlapping occurrence of `sep`. -/
def jsSplitOn (sep s : List Char) : List (List Char) :=
  jsSplitOnF sep (s.length + 1) [] s

/-- Join chunks with the blank-line separator, as `Array.prototype.join`
with the two-character string of two line feeds. -/
def joinBlank (chunks : List (List Char)) : List Char :=
  List.intercalate ['\n', '\n'] chunks

/-- The half-open slice `[a, b)` of a list (JavaScript
`String.prototype.substring` for `a ≤ b` within bounds). -/
def listSlice (s : List Char) (a b : Nat) : List Char :=
  (s.take b).drop a

/-! ## A JavaScript-style regular-expression engine

`Regex` is the abstract syntax of the pattern fragment the application
exercises: literals, the dot, concatenation, alternation, greedy and lazy
repetition, one capture group (group 1) and lookahead.  `mAllF` lists, in
JavaScript backtracking priority order, every way the pattern can match a
prefix of the input, as pairs of consumed length and the optional span
captured by group 1 (offsets relative to the start of the attempt).  The
first element is the match the JavaScript engine commits to. -/

inductive Regex where
  | eps : Regex
  | chr (c : Char) : Regex
  | anyc : Regex
  | cat (r1 r2 : Regex) : Regex
  | alt (r1 r2 : Regex) : Regex
  | star (r : Regex) (lazy : Bool) : Regex
  | grp (r : Regex) : Regex
  | look (r : Regex) : Regex
deriving DecidableEq, Repr

/-- JavaScript line terminators, which the dot does not match without the
dot-all flag. -/
def isLineTerm (c : Char) : Bool :=
  c = '\n' || c = '\r' || c = ' ' || c = ' '

/-- Capture combination: the later (right, or last-iteration) capture of
group 1 wins, as in the JavaScript engine. -/
def combCap : Option (Nat × Nat) → Option (Nat × Nat) → Option (Nat × Nat)
  | c1, none => c1
  | _, some c => some c

/-- Shift a relative capture span by the length consumed before it. -/
def shiftCap (k : Nat) : Option (Nat × Nat) → Option (Nat × Nat)
  | none => none
  | some (a, b) => some (k + a, k + b)

/-- All prefix matches of a pattern against the input, in backtracking
priority order, with group-1 capture spans.  Structural recursion on the
fuel so the definition evaluates by kernel reduction; `mAllFuel` below
always supplies enough fuel for the patterns of this repository. -/
def mAllF : Nat → Regex → List Char → List (Nat × Option (Nat × Nat))
  | 0, _, _ => []
  | f + 1, r, s =>
      match r with
      | .eps => [(0, none)]
      | .chr c =>
          match s with
          | [] => []
          | a :: _ => if a = c then [(1, none)] else []
      | .anyc =>
          match s with
          | [] => []
          | a :: _ => if isLineTerm a then [] else [(1, none)]
      | .cat r1 r2 =>
          (mAllF f r1 s).flatMap fun p =>
            (mAllF f r2 (s.drop p.1)).map fun q =>
              (p.1 + q.1, combCap p.2 (shiftCap p.1 q.2))
      | .alt r1 r2 => mAllF f r1 s ++ mAllF f r2 s
      | .star r1 lz =>
          let more := (mAllF f r1 s).flatMap fun p =>
            if p.1 = 0 then []
            else (mAllF f (.star r1 lz) (s.drop p.1)).map fun q =>
              (p.1 + q.1, combCap p.2 (shiftCap p.1 q.2))
          if lz then (0, none) :: more else more ++ [(0, none)]
      | .grp r1 => (mAllF f r1 s).map fun p => (p.1, some (0, p.1))
      | .look r1 =>
          match mAllF f r1 s with
          | [] => []
          | p :: _ => [(0, p.2)]

/-- Structural size of a pattern, to bound the fuel. -/
def Regex.size : Regex → Nat
  | .eps => 1
  | .chr _ => 1
  | .anyc => 1
  | .cat r1 r2 => r1.size + r2.size + 1
  | .alt r1 r2 => r1.size + r2.size + 1
  | .star r _ => r.size + 1
  | .grp r => r.size + 1
  | .look r => r.size + 1

/-- Fuel sufficient for `mAllF`: along any call path the pattern shrinks
except on re-entering a star, which consumes at least one character. -/
def mAllFuel (r : Regex) (s : List Char) : Nat :=
  (r.size + 1) * (s.length + 1)

/-- All prefix matches at the current position, priority ordered. -/
def mAll (r : Regex) (s : List Char) : List (Nat × Option (Nat × Nat)) :=
  mAllF (mAllFuel r s) r s

/-- One global match: absolute start and end offsets into the text, and
the absolute span captured by group 1 when the group participated. -/
structure MatchInfo where
  start : Nat
  stop : Nat
  cap : Option (Nat × Nat)
deriving DecidableEq, Repr

/-- The global scan of `String.prototype.matchAll`: at each position try
the pattern; on success record the match and resume at its end (one past
it for an empty match); on failure advance one position.  The scan stops
once the position passes the end of the text. -/
def scanAll (r : Regex) (text : List Char) : Nat → Nat → List MatchInfo
  | 0, _ => []
  | f + 1, pos =>
      if pos > text.length then []
      else
        match (mAll r (text.drop pos)).head? with
        | some p =>
            let m : MatchInfo :=
              ⟨pos, pos + p.1, shiftCap pos p.2⟩
            if p.1 = 0 then m :: scanAll r text f (pos + 1)
            else m :: scanAll r text f (pos + p.1)
        | none => scanAll r text f (pos + 1)

/-- `Array.from(text.matchAll(regex))` with the global flag. -/
def jsMatchAll (r : Regex) (text : List Char) : List MatchInfo :=
  scanAll r text (text.length + 2) 0

/-! ## The extraction engine of `src/App.tsx` (`handleGenerate`) -/

/-- The extraction strategies of `App.tsx` (`ExtractionMethod`). -/
inductive ExtractionMethod where
  | none : ExtractionMethod
  | auto : ExtractionMethod
  | regex : ExtractionMethod
  | ai : ExtractionMethod
  | user_questions : ExtractionMethod
deriving DecidableEq, Repr

/-- Does the text at the current position start with one of the fixed
auto-detect markers `Q:`, `Question:`, `- `, `* ` (the alternatives of
the split pattern in `handleGenerate`)? -/
def markerAt (s : List Char) : Bool :=
  startsWithL "Q:".toList s || startsWithL "Question:".toList s ||
    (match s with
     | c :: ' ' :: _ => c = '-' || c = '*'
     | _ => false)

/-- Is offset `i` a split point of the lookahead split
`text.split(/(?=^Q:|^Question:|^[-*] )/m)`: a line start (after a line
terminator, with the multiline flag) strictly inside the text where a
marker begins?  A zero-width separator match at offset 0 produces no cut
under the JavaScript split algorithm, hence `0 < i`. -/
def isSplitPoint (text : List Char) (i : Nat) : Bool :=
  0 < i && ((text.get? (i - 1)).elim false isLineTerm) && markerAt (text.drop i)

/-- All split points of the auto-detect split, in increasing order. -/
def splitPoints (text : List Char) : List Nat :=
  (List.range text.length).filter (isSplitPoint text)

/-- The chunks of the auto-detect split: the slices of the text between
consecutive split points, each retaining its leading marker. -/
def autoChunks (text : List Char) : List (List Char) :=
  ((0 :: splitPoints text).zip (splitPoints text ++ [text.length])).map
    (fun p => listSlice text p.1 p.2)

/-- The snippet extracted from a regex match: `match[1] ?? match[0]`,
that is the text of capture group 1 when the group participated, else
the whole match text. -/
def selText (text : List Char) (m : MatchInfo) : List Char :=
  match m.cap with
  | some (a, b) => listSlice text a b
  | none => listSlice text m.start m.stop

/-- Diagnostics of `handleGenerate`, verbatim from `App.tsx`. -/
def offlineMsg : List Char :=
  "You appear to be offline. An internet connection is required to generate flashcards.".toList

/-- Empty-input rejection message. -/
def enterTextMsg : List Char :=
  "Please enter some text to generate flashcards.".toList

/-- Non-fatal diagnostic of the auto-detect fallback. -/
def autoNoMarkersMsg : List Char :=
  "Auto-detect mode is on, but no lines starting with \"Q:\", \"Question:\", \"- \", or \"* \" were found. Processing all text.".toList

/-- Rejection message for a pattern that fails to compile. -/
def invalidRegexMsg : List Char :=
  "Invalid regular expression pattern or flags.".toList

/-- Rejection message for a compiling pattern with zero matches. -/
def noMatchesMsg : List Char :=
  "No matches found for the provided regular expression.".toList

/-- Rejection message for user-questions mode with an empty list. -/
def questionListMsg : List Char :=
  "Please enter a list of questions for the AI to answer.".toList

/-- Rejection message when the processed text is empty. -/
def emptyProcessedMsg : List Char :=
  "The text after applying the extraction method is empty.".toList

/-- Outcome of one `handleGenerate` invocation, up to the point where
the streaming call would start: either an abort with a user-facing
message (generation never starts, prior output untouched) or a
transition into the generating state with the processed input and the
auto-detect fallback diagnostic, if any (output cleared). -/
inductive GenStep where
  | abort (message : List Char) : GenStep
  | proceed (processed : List Char) (warning : Option (List Char)) : GenStep
deriving DecidableEq, Repr

/-- Is the outcome an abort? -/
def GenStep.isAbort : GenStep → Bool
  | .abort _ => true
  | .proceed _ _ => false

/-- The output text after the outcome: untouched on abort, cleared on a
successful transition into the generating state (`setOutputText('')`). -/
def outputAfter (g : GenStep) (prevOutput : List Char) : List Char :=
  match g with
  | .abort _ => prevOutput
  | .proceed _ _ => []

/-- The `auto` branch of `handleGenerate`: split at the markers, drop
whitespace-only chunks, rejoin with the blank-line separator; with zero
chunks, fall back to the whole original text plus the non-fatal
diagnostic. -/
def autoExtract (inputText : List Char) : List Char × Option (List Char) :=
  if ((autoChunks inputText).filter hasNonWS).length > 0 then
    (joinBlank ((autoChunks inputText).filter hasNonWS), Option.none)
  else (inputText, some autoNoMarkersMsg)

/-- The match-and-join core of the `regex` branch of `handleGenerate`:
`Option.none` when there are zero global matches, else the snippets
`match[1] ?? match[0]` joined with the blank-line separator. -/
def regexExtract (r : Regex) (inputText : List Char) : Option (List Char) :=
  if (jsMatchAll r inputText).length > 0 then
    some (joinBlank ((jsMatchAll r inputText).map (selText inputText)))
  else Option.none

/-- The guard-and-extraction front of `handleGenerate` in `App.tsx`.
`compiled` is the result of `new RegExp(regexPattern, regexFlags)`:
`Option.none` models a pattern/flags combination that throws at
compilation.  The branch structure mirrors the source: offline check,
empty-input check, then the `auto` / `regex` / `user_questions` chain,
then the empty-processed-text check, then the transition into
generating. -/
def handleGenerate (online : Bool) (inputText : List Char)
    (method : ExtractionMethod) (regexPattern : List Char)
    (compiled : Option Regex) (questionList : List Char) : GenStep :=
  if !online then .abort offlineMsg
  else if !(hasNonWS inputText) then .abort enterTextMsg
  else
    let ext : Except (List Char) (List Char × Option (List Char)) :=
      if method = .auto then .ok (autoExtract inputText)
      else if method = .regex && hasNonWS regexPattern then
        match compiled with
        | Option.none => .error invalidRegexMsg
        | some r =>
            match regexExtract r inputText with
            | some processed => .ok (processed, Option.none)
            | Option.none => .error noMatchesMsg
      else if method = .user_questions && !(hasNonWS questionList) then
        .error questionListMsg
      else .ok (inputText, Option.none)
    match ext with
    | .error m => .abort m
    | .ok pw =>
        if !(hasNonWS pw.1) then .abort emptyProcessedMsg
        else .proceed pw.1 pw.2

/-! ## The regex preview segmentation of `src/components/InputPanel.tsx` -/

/-- One segment of the highlighted preview: a literal run between
matches or a highlighted run over a match's selected span. -/
inductive Seg where
  | lit (a b : Nat) : Seg
  | hl (a b : Nat) : Seg
deriving DecidableEq, Repr

/-- The span of a segment. -/
def Seg.span : Seg → Nat × Nat
  | .lit a b => (a, b)
  | .hl a b => (a, b)

/-- The underlying text of a segment. -/
def segText (text : List Char) (s : Seg) : List Char :=
  listSlice text s.span.1 s.span.2

/-- The `matches.forEach` loop of the `highlightedContent` memo with its
`lastIndex` bookkeeping: a literal run from `lastIndex` to the selected
span's start when there is a gap, the highlighted run, then recursion
from the span's end; a final literal run covers any tail. -/
def buildSegs (text : List Char) (last : Nat) : List MatchInfo → List Seg
  | [] => if last < text.length then [.lit last text.length] else []
  | m :: t =>
      let sp := m.cap.getD (m.start, m.stop)
      (if sp.1 > last then [Seg.lit last sp.1] else []) ++
        Seg.hl sp.1 sp.2 :: buildSegs text sp.2 t

/-- The segments of the highlighted preview for a compiled pattern: the
whole text as one literal run when there are no matches, else the
`lastIndex` walk over all global matches, each highlighted over the
group-1 span when the group participated (`match.indices[1]`) else the
whole-match span (`match.indices[0]`). -/
def previewSegs (r : Regex) (text : List Char) : List Seg :=
  if jsMatchAll r text = [] then [.lit 0 text.length]
  else buildSegs text 0 (jsMatchAll r text)

/-! ## The output validator of `src/components/OutputPanel.tsx` -/

/-- Output serialization formats. -/
inductive OutputFormat where
  | tsv : OutputFormat
  | csv : OutputFormat
  | json : OutputFormat
deriving DecidableEq, Repr

/-- The tri-state validation verdict plus idle. -/
inductive VStatus where
  | idle : VStatus
  | valid : VStatus
  | warning : VStatus
  | invalid : VStatus
deriving DecidableEq, Repr

/-- The validation state: a verdict and a human-readable message. -/
structure ValidationState where
  status : VStatus
  message : List Char
deriving DecidableEq, Repr

/-- The idle validation state. -/
def idleV : ValidationState := ⟨.idle, []⟩

/-- Shape check for one CSV line: starts with a double quote, ends with
a double quote, and splits into exactly two fields on the three-character
delimiter quote-comma-quote. -/
def csvLineOk (line : List Char) : Bool :=
  startsWithL ['"'] line && startsWithL ['"'] line.reverse &&
    (jsSplitOn ['"', ',', '"'] line).length = 2

/-- Shape check for one TSV line: splits into exactly two fields on the
tab character. -/
def tsvLineOk (line : List Char) : Bool :=
  (jsSplitOn ['\t'] line).length = 2

/-- The non-blank lines of the trimmed output
(`outputText.trim().split('\n').filter(line => line.trim() !== '')`). -/
def nonBlankLines (out : List Char) : List (List Char) :=
  (jsSplitOn ['\n'] (jsTrim out)).filter hasNonWS

/-- The validation computation of `OutputPanel.tsx`.  `jsonOk` models
the platform `JSON.parse` succeeding on the trimmed text, which is
outside this repository. -/
def validateOutput (jsonOk : List Char → Bool) (fmt : OutputFormat)
    (out : List Char) : ValidationState :=
  match fmt with
  | .json =>
      if jsonOk (jsTrim out) then ⟨.valid, "JSON format is valid.".toList⟩
      else ⟨.invalid, "Invalid JSON detected. The file may be corrupted or incomplete.".toList⟩
  | .csv =>
      let lines := nonBlankLines out
      if lines.length > 0 && lines.any (fun l => !csvLineOk l) then
        ⟨.warning, "Potential CSV formatting issues found. Check for proper quoting and delimiters.".toList⟩
      else ⟨.valid, "Format appears valid.".toList⟩
  | .tsv =>
      let lines := nonBlankLines out
      if lines.length > 0 && lines.any (fun l => !tsvLineOk l) then
        ⟨.warning, "Potential TSV formatting issues found. Some rows may not have exactly two columns.".toList⟩
      else ⟨.valid, "Format appears valid.".toList⟩

/-- The state the validation effect carries across runs: the previous
loading flag (`prevIsLoadingRef`) and the validation state. -/
structure EffectState where
  prevLoading : Bool
  validation : ValidationState
deriving DecidableEq, Repr

/-- One run of the validation `useEffect`, returning the next state and
whether the validator was invoked in this run.  Mirrors the source: the
verdict is computed exactly when loading has just transitioned from true
to false and the output text is non-empty; otherwise the state resets to
idle when the output is empty or loading is in progress, and is left
unchanged otherwise; the previous-loading ref is updated at the end. -/
def effectStep (jsonOk : List Char → Bool) (st : EffectState)
    (out : List Char) (fmt : OutputFormat) (loading : Bool) :
    EffectState × Bool :=
  let justFinished := st.prevLoading && !loading
  if justFinished && !out.isEmpty then
    (⟨loading, validateOutput jsonOk fmt out⟩, true)
  else if out.isEmpty || loading then (⟨loading, idleV⟩, false)
  else (⟨loading, st.validation⟩, false)

/-- Run the validation effect over a trace of dependency changes,
counting how many runs invoked the validator. -/
def runEffect (jsonOk : List Char → Bool) :
    EffectState → List (List Char × OutputFormat × Bool) → EffectState × Nat
  | st, [] => (st, 0)
  | st, (out, fmt, ld) :: t =>
      let p := effectStep jsonOk st out fmt ld
      let q := runEffect jsonOk p.1 t
      (q.1, (if p.2 then 1 else 0) + q.2)

/-- The number of finished-generation events in a trace: runs where the
loading flag transitions from true to false with non-empty output. -/
def countFinishes (prev : Bool) : List (List Char × OutputFormat × Bool) → Nat
  | [] => 0
  | (out, _, ld) :: t =>
      (if prev && !ld && !out.isEmpty then 1 else 0) + countFinishes ld t

/-! ## The generation client of `src/services/geminiService.ts` -/

/-- The generic fallback error message. -/
def genericErrMsg : List Char := "An unexpected error occurred.".toList

/-- The error mapping of the `catch` block in
`generateFlashcardsStream`: a thrown failure (`some message` when the
failure is an `Error`, `Option.none` otherwise) is mapped by
case-sensitive substring containment into one of four fixed messages,
and the mapped message is what is re-thrown to the caller. -/
def mapStreamError (e : Option (List Char)) : List Char :=
  match e with
  | Option.none => genericErrMsg
  | some m =>
      if containsSeq "API key not valid".toList m then "API_KEY_INVALID".toList
      else if containsSeq "RESOURCE_EXHAUSTED".toList m ||
          containsSeq "rate limit".toList m then "RATE_LIMIT_EXCEEDED".toList
      else if containsSeq "candidate".toList m &&
          containsSeq "was blocked".toList m then "CONTENT_BLOCKED".toList
      else genericErrMsg

/-- The request configuration built in `generateFlashcardsStream`: the
system instruction always, and the extended-reasoning (thinking) budget
of 32768 exactly when the model identifier equals `gemini-2.5-pro`. -/
structure GenConfig where
  systemInstruction : String
  thinkingBudget : Option Nat
deriving DecidableEq, Repr

/-- Build the configuration for a generation call
(`model === 'gemini-2.5-pro' ? { thinkingConfig: ... } : {}`). -/
def buildGenConfig (model : String) (si : String) : GenConfig :=
  ⟨si, if model = "gemini-2.5-pro" then some 32768 else Option.none⟩

/-- Does `s` end with `suf` (`String.prototype.endsWith`)? -/
def endsWithL (suf s : List Char) : Bool :=
  startsWithL suf.reverse s.reverse

/-! ## `parseInt` and the quantity instruction of the prompt builder -/

/-- Numeric value of a decimal digit. -/
def digVal (c : Char) : Nat := c.toNat - '0'.toNat

/-- Parse a leading run of decimal digits; `Option.none` when there is
none (`parseInt` returns NaN). -/
def parseDigits (l : List Char) : Option Nat :=
  let ds := l.takeWhile Char.isDigit
  if ds.isEmpty then Option.none
  else some (ds.foldl (fun a c => a * 10 + digVal c) 0)

/-- JavaScript `parseInt(s, 10)`: skip leading whitespace, read an
optional sign, then the longest leading run of decimal digits; NaN
(`Option.none`) when no digit follows.  (Exact integer arithmetic; the
double-precision rounding of JavaScript only diverges beyond 2^53,
far outside the number-of-cards range.) -/
def jsParseInt (s : String) : Option Int :=
  match s.toList.dropWhile isWS with
  | '-' :: rest => (parseDigits rest).map (fun n => -(n : Int))
  | '+' :: rest => (parseDigits rest).map (fun n => (n : Int))
  | rest => (parseDigits rest).map (fun n => (n : Int))

/-- The appropriate-number quantity instruction. -/
def appropriateQuantity : String :=
  "Generate an appropriate number of flashcards based on the length and density of the input text."

/-- The quantity instruction of `createPromptParts`:
`parseInt(numberOfCards, 10) > 0` selects the exact-count sentence with
the parsed value interpolated, else the appropriate-number sentence. -/
def quantityInstruction (numberOfCards : String) : String :=
  match jsParseInt numberOfCards with
  | some n =>
      if n > 0 then "Generate exactly " ++ toString n ++ " flashcards."
      else appropriateQuantity
  | Option.none => appropriateQuantity

/-! ## The prompt builder of `src/services/geminiService.ts` -/

/-- Card styles (`CardType` in `App.tsx`). -/
inductive CardType where
  | basic : CardType
  | mcq : CardType
  | cloze : CardType
deriving DecidableEq, Repr

/-- `s.replace(/"/g, repl)` for a replacement with no special
characters: every double quote replaced by `repl`. -/
def replaceQuotes (repl : List Char) (s : String) : String :=
  String.mk (s.toList.flatMap fun c => if c = '"' then repl else [c])

/-- The per-card-type front/back examples of `getFormatInstructions`. -/
def cardExample : CardType → String × String
  | .basic =>
      ("What causes <b>Community-Acquired Pneumonia</b>?",
       "Common pathogens:<ul><li><i>Streptococcus pneumoniae</i></li><li>Haemophilus influenzae</li><li>Mycoplasma pneumoniae</li></ul>")
  | .mcq =>
      ("Which organism causes <i>most</i> UTIs?",
       "A) E. coli ✓<br>B) S. aureus<br>C) Pseudomonas<br>D) Klebsiella")
  | .cloze =>
      ("\x7b\x7bc1::<b>Streptococcus pneumoniae</b>\x7d\x7d is the most common cause of community-acquired pneumonia.",
       "<b>Streptococcus pneumoniae</b> is the most common cause of community-acquired pneumonia.")

/-- The shared formatting sentence of `getFormatInstructions`. -/
def formattingInstruction : String :=
  "Use standard HTML tags (e.g., <b>, <i>, <ul>, <li>, <br>) to preserve formatting like bolding, italics, and lists from the original text."

/-- `getFormatInstructions`: format-specific grammar plus one example per
card type (quotes doubled for CSV, backslash-escaped for JSON, a literal
tab separator for TSV). -/
def getFormatInstructions (outputFormat : OutputFormat) (cardType : CardType) : String :=
  let fb := cardExample cardType
  match outputFormat with
  | .csv =>
      "**FORMAT:** Use Comma-Separated Values (CSV) format with exactly 2 columns. Do not include a header row. Each line must be a single card with the front and back enclosed in double quotes and separated by a comma. Properly escape any double quotes within the content by doubling them. " ++
      formattingInstruction ++
      "\n      \n      **EXAMPLE OF DESIRED FORMAT:**\n      \n      \"" ++
      replaceQuotes ['"', '"'] fb.1 ++ "\",\"" ++ replaceQuotes ['"', '"'] fb.2 ++ "\""
  | .json =>
      "**FORMAT:** Use JSON format. The output MUST be a valid JSON array of objects. Each object in the array should represent a single flashcard and have two keys: \"front\" and \"back\". Do not include any other text or formatting outside the JSON array. The \"front\" and \"back\" values should be strings. " ++
      formattingInstruction ++
      "\n\n      **EXAMPLE OF DESIRED FORMAT:**\n      \n      [\n        \x7b\n          \"front\": \"" ++
      replaceQuotes ['\\', '"'] fb.1 ++
      "\",\n          \"back\": \"" ++
      replaceQuotes ['\\', '"'] fb.2 ++
      "\"\n        \x7d\n      ]"
  | .tsv =>
      "**FORMAT:** Use Tab-Separated Values (TSV) format with exactly 2 columns. Do not include a header row like \"Front\\tBack\". Each line must be a single card with the front and back separated by a single tab character ('\\t'). " ++
      formattingInstruction ++
      "\n\n      **EXAMPLE OF DESIRED FORMAT:**\n      \n      " ++
      fb.1 ++ "\t" ++ fb.2

/-- `getCardTypeInstructions`: the per-card-type rule block. -/
def getCardTypeInstructions (cardType : CardType) : String :=
  match cardType with
  | .mcq =>
      "\n**Instructions for \"Multiple Choice\":**\n*   For the 'Front', create a clear, answerable question based on the input text.\n*   For the 'Back', provide multiple distinct answer options (e.g., A, B, C, D).\n*   Ensure one option is clearly the correct answer and is derived from the text.\n*   Mark the correct answer by appending a checkmark (✓) to it.\n"
  | .cloze =>
      "\n**Instructions for \"Cloze Deletion\":**\n*   For the 'Front', take a key sentence from the text and hide a critical term or phrase using the Anki cloze format: `\x7b\x7bc1::hidden text\x7d\x7d`.\n*   Create only one cloze (c1) per card.\n*   The 'Back' should contain the full, unedited sentence for context.\n*   Focus on hiding the most important piece of information in the sentence.\n"
  | .basic =>
      "\n**Instructions for \"Basic Q&A\":**\n*   'Front' should be a clear, focused question.\n*   'Back' should be a comprehensive but concise answer.\n"

/-- The generation options record (`GenerationOptions`). -/
structure GenerationOptions where
  model : String
  outputFormat : OutputFormat
  cardType : CardType
  numberOfCards : String
  extractionMethod : ExtractionMethod
  questionList : String
deriving DecidableEq, Repr

/-- The fixed system instruction of `createPromptParts`. -/
def systemInstructionText : String :=
  "You are an expert Anki flashcard creator. Your task is to convert the provided text into a structured data format for flashcards. You must adhere strictly to the format and card type instructions. The output MUST BE ONLY the requested data format. Do not add any introductory text, explanations, summaries, or code block formatting like ``` ... ```. The entire response should be parsable as a raw file of the specified format."

/-- The user-questions task instruction. -/
def taskUserQuestions : String :=
  "\n**TASK:** Your task is to act as a research assistant. You have been given a **CONTEXT DOCUMENT** and a **LIST OF QUESTIONS**. For each question in the list, you must find the answer within the context document.\n\nCreate one flashcard for each question.\n- The 'Front' of the card MUST be the question from the list, exactly as written.\n- The 'Back' of the card MUST contain the complete, unabridged answer derived *exclusively* from the **CONTEXT DOCUMENT**. You must extract the entire relevant passage or section that answers the question. DO NOT summarize, shorten, or omit any information from the source text. You can reformat the text using HTML for better readability (like lists or bolding), but the core information must be fully preserved.\n\nIf the answer to a specific question cannot be found in the context document, the 'Back' of the card for that question should be exactly: \"Answer not found in the provided text.\"\n\nFinally, format all the generated flashcards according to the specifications below."

/-- The ai-delegated task instruction. -/
def taskAi : String :=
  "\n**TASK:** Your primary task is to act as an expert educator. First, thoroughly analyze the **INPUT TEXT** to identify the most important concepts, facts, and relationships. Based on your analysis, generate a series of insightful questions that cover these key areas.\n\nOnce you have formulated the questions, create one flashcard for each question. The 'Front' of the card should be the question you generated. The 'Back' of the card must be a concise, accurate answer derived *exclusively* from the information present in the **INPUT TEXT**.\n\nFinally, format all the generated flashcards according to the specifications below."

/-- The direct-conversion task instruction. -/
def taskDirect : String :=
  "\n**TASK:** Convert the input text into flashcards with the following specifications."

/-- The plain input block. -/
def inputBlock (userInput : String) : String :=
  "\n**INPUT TEXT:**\n---\n" ++ userInput ++ "\n---\n"

/-- The context-document plus question-list block. -/
def contextBlock (userInput questionList : String) : String :=
  "\n**CONTEXT DOCUMENT:**\n---\n" ++ userInput ++
    "\n---\n\n**LIST OF QUESTIONS:**\n---\n" ++ questionList ++ "\n---\n"

/-- The fixed content-rules block closing `userContent`. -/
def contentRulesBlock : String :=
  "\n\n4.  **CONTENT RULES:**\n    *   **FORMATTING:** Retain original text formatting (bold, italics, lists) using HTML tags (e.g., <b>, <i>, <ul>, <li>). This is crucial for Anki compatibility.\n    *   Create 1 card per key concept/fact unless a specific quantity is requested.\n    *   Keep questions/prompts clear and focused.\n    *   Answers should be comprehensive but concise.\n    *   Prioritize high-yield information for exams or study.\n    *   Use simple language without sacrificing accuracy.\n    *   **PRESERVE EXISTING QUESTIONS:** If the input text already contains full questions, use them verbatim for the 'Front' of the flashcard. Your main task is to generate the corresponding answer for the 'Back' from the provided text. Do not change the original questions.\n\n**START CONVERSION NOW. Your entire response must be the raw data in the specified format, with no extra text.**\n"

/-- A prompt: the system instruction and the user content. -/
structure PromptParts where
  systemInstruction : String
  userContent : String
deriving DecidableEq, Repr

/-- `createPromptParts`: branch on the extraction method for the task
instruction and the main input block, then assemble the user content
with the format, card-type, quantity and content-rule sections. -/
def createPromptParts (userInput : String) (options : GenerationOptions) : PromptParts :=
  let branch :=
    if options.extractionMethod = .user_questions && options.questionList ≠ "" then
      (taskUserQuestions, contextBlock userInput options.questionList)
    else if options.extractionMethod = .ai then
      (taskAi, inputBlock userInput)
    else
      (taskDirect, inputBlock userInput)
  let userContent :=
    "\n" ++ branch.2 ++ "\n\n" ++ branch.1 ++
    "\n\n**SPECIFICATIONS:**\n\n1.  **OUTPUT FORMAT DETAILS:**\n    " ++
    getFormatInstructions options.outputFormat options.cardType ++
    "\n\n2.  **CARD TYPE DETAILS:**\n    " ++
    getCardTypeInstructions options.cardType ++
    "\n\n3.  **QUANTITY:** " ++
    quantityInstruction options.numberOfCards ++
    contentRulesBlock
  ⟨systemInstructionText, userContent⟩

/-! ## Span chains and slice reconstruction -/

/-- A span list chains from `a` to `b`: each span starts where the walk
stands, does not run backwards, and the walk ends at `b`.  This is the
no-gap no-overlap partition property of the preview segmentation. -/
def chainFromB : Nat → List (Nat × Nat) → Nat → Bool
  | a, [], b => a == b
  | a, sp :: t, b => sp.1 == a && a ≤ sp.2 && chainFromB sp.2 t b

theorem chainFromB_le {l : List (Nat × Nat)} :
    ∀ {a b : Nat}, chainFromB a l b = true → a ≤ b := by
  induction l with
  | nil => intro a b h; simp [chainFromB] at h; omega
  | cons sp t ih =>
      intro a b h
      simp only [chainFromB, Bool.and_eq_true, decide_eq_true_eq] at h
      exact le_trans h.1.2 (ih h.2)

theorem drop_take_append {α : Type} (l : List α) {a b : Nat} (hab : a ≤ b) :
    (l.take b).drop a ++ l.drop b = l.drop a := by
  induction l generalizing a b with
  | nil => simp
  | cons x xs ih =>
      cases b with
      | zero => cases Nat.le_zero.mp hab; simp
      | succ b' =>
          cases a with
          | zero =>
              simp only [List.take_succ_cons, List.drop_zero, List.cons_append,
                List.drop_succ_cons, List.cons.injEq, true_and]
              exact ih (Nat.zero_le b')
          | succ a' =>
              simp only [List.take_succ_cons, List.drop_succ_cons]
              exact ih (Nat.le_of_succ_le_succ hab)

theorem listSlice_append (s : List Char) {a b c : Nat} (hab : a ≤ b) (hbc : b ≤ c) :
    listSlice s a b ++ listSlice s b c = listSlice s a c := by
  unfold listSlice
  have h1 : s.take b = (s.take c).take b := by
    rw [List.take_take, Nat.min_eq_left hbc]
  rw [h1]
  exact drop_take_append (s.take c) hab

theorem listSlice_full (s : List Char) : listSlice s 0 s.length = s := by
  simp [listSlice]

/-- Chained slices concatenate to the single slice over the chain. -/
theorem flatten_slices_of_chain (text : List Char) :
    ∀ (spans : List (Nat × Nat)) {a b : Nat}, chainFromB a spans b = true →
      (spans.map (fun p => listSlice text p.1 p.2)).flatten = listSlice text a b := by
  intro spans
  induction spans with
  | nil =>
      intro a b h
      simp only [chainFromB, beq_iff_eq] at h
      simp [h, listSlice, List.drop_take]
  | cons sp t ih =>
      intro a b h
      simp only [chainFromB, Bool.and_eq_true, beq_iff_eq, decide_eq_true_eq] at h
      obtain ⟨⟨h1, h2⟩, h3⟩ := h
      simp only [List.map_cons, List.flatten_cons, ih h3, h1]
      exact listSlice_append text h2 (chainFromB_le h3)

/-! ## Well-formedness of the global match list -/

/-- The matches are ordered left to right, non-overlapping, and lie
within the first `len` offsets, walking from lower bound `lo`. -/
def matchesOrd (lo len : Nat) : List MatchInfo → Bool
  | [] => true
  | m :: t => lo ≤ m.start && m.start ≤ m.stop && m.stop ≤ len && matchesOrd m.stop len t

/-- The captured span of group 1, when present, lies within the whole
match's span. -/
def capWithin (m : MatchInfo) : Bool :=
  match m.cap with
  | Option.none => true
  | some p => m.start ≤ p.1 && p.1 ≤ p.2 && p.2 ≤ m.stop

theorem matchesOrd_mono {len : Nat} {ms : List MatchInfo} :
    ∀ {lo lo' : Nat}, lo' ≤ lo → matchesOrd lo len ms = true →
      matchesOrd lo' len ms = true := by
  cases ms with
  | nil => intro lo lo' _ _; rfl
  | cons m t =>
      intro lo lo' hle h
      simp only [matchesOrd, Bool.and_eq_true, decide_eq_true_eq] at h ⊢
      exact ⟨⟨⟨le_trans hle h.1.1.1, h.1.1.2⟩, h.1.2⟩, h.2⟩

/-- A pattern with no capture group anywhere. -/
def GrpFree : Regex → Bool
  | .eps => true
  | .chr _ => true
  | .anyc => true
  | .cat r1 r2 => GrpFree r1 && GrpFree r2
  | .alt r1 r2 => GrpFree r1 && GrpFree r2
  | .star r _ => GrpFree r
  | .grp _ => false
  | .look r => GrpFree r

/-- No capture group sits inside a lookahead.  Lookaheads themselves
are allowed; only a capture group inside one can make the captured span
escape the whole-match span. -/
def NoGroupInLook : Regex → Bool
  | .eps => true
  | .chr _ => true
  | .anyc => true
  | .cat r1 r2 => NoGroupInLook r1 && NoGroupInLook r2
  | .alt r1 r2 => NoGroupInLook r1 && NoGroupInLook r2
  | .star r _ => NoGroupInLook r
  | .grp r => NoGroupInLook r
  | .look r => GrpFree r

/-- Every prefix match consumes at most the whole remaining input. -/
theorem mAllF_len : ∀ (f : Nat) (r : Regex) (s : List Char),
    ∀ p ∈ mAllF f r s, p.1 ≤ s.length := by
  intro f
  induction f with
  | zero => intro r s p hp; simp [mAllF] at hp
  | succ f ih =>
      intro r s p hp
      cases r with
      | eps =>
          simp only [mAllF, List.mem_singleton] at hp
          simp [hp]
      | chr c =>
          cases s with
          | nil => simp [mAllF] at hp
          | cons a t =>
              simp only [mAllF] at hp
              split at hp <;> simp_all
      | anyc =>
          cases s with
          | nil => simp [mAllF] at hp
          | cons a t =>
              simp only [mAllF] at hp
              split at hp <;> simp_all
      | cat r1 r2 =>
          simp only [mAllF, List.mem_flatMap, List.mem_map] at hp
          obtain ⟨p1, hp1, q, hq, rfl⟩ := hp
          have h1 := ih r1 s p1 hp1
          have h2 := ih r2 (s.drop p1.1) q hq
          simp only [List.length_drop] at h2
          simp only []
          omega
      | alt r1 r2 =>
          simp only [mAllF, List.mem_append] at hp
          cases hp with
          | inl h => exact ih r1 s p h
          | inr h => exact ih r2 s p h
      | star r1 lz =>
          simp only [mAllF] at hp
          have hmore : ∀ q ∈ (mAllF f r1 s).flatMap (fun p =>
              if p.1 = 0 then []
              else (mAllF f (.star r1 lz) (s.drop p.1)).map fun q =>
                (p.1 + q.1, combCap p.2 (shiftCap p.1 q.2))), q.1 ≤ s.length := by
            intro q hq
            simp only [List.mem_flatMap] at hq
            obtain ⟨p1, hp1, hq⟩ := hq
            split at hq
            · simp at hq
            · simp only [List.mem_map] at hq
              obtain ⟨q2, hq2, rfl⟩ := hq
              have h1 := ih r1 s p1 hp1
              have h2 := ih (.star r1 lz) (s.drop p1.1) q2 hq2
              simp only [List.length_drop] at h2
              simp only []
              omega
          split at hp
          · cases hp with
            | head => simp
            | tail _ h => exact hmore p h
          · rcases List.mem_append.mp hp with h | h
            · exact hmore p h
            · simp only [List.mem_singleton] at h
              simp [h]
      | grp r1 =>
          simp only [mAllF, List.mem_map] at hp
          obtain ⟨p1, hp1, rfl⟩ := hp
          exact ih r1 s p1 hp1
      | look r1 =>
          simp only [mAllF] at hp
          split at hp
          · simp at hp
          · simp only [List.mem_singleton] at hp
            simp [hp]


/-- A pattern with no capture group anywhere yields no captured span. -/
theorem mAllF_grpFree : ∀ (f : Nat) (r : Regex), GrpFree r = true →
    ∀ (s : List Char), ∀ p ∈ mAllF f r s, p.2 = Option.none := by
  intro f
  induction f with
  | zero => intro r _ s p hp; simp [mAllF] at hp
  | succ f ih =>
      intro r hr s p hp
      cases r with
      | eps =>
          simp only [mAllF, List.mem_singleton] at hp
          simp [hp]
      | chr c =>
          cases s with
          | nil => simp [mAllF] at hp
          | cons x t =>
              simp only [mAllF] at hp
              split at hp <;> simp_all
      | anyc =>
          cases s with
          | nil => simp [mAllF] at hp
          | cons x t =>
              simp only [mAllF] at hp
              split at hp <;> simp_all
      | cat r1 r2 =>
          simp only [GrpFree, Bool.and_eq_true] at hr
          simp only [mAllF, List.mem_flatMap, List.mem_map] at hp
          obtain ⟨p1, hp1, q, hq, rfl⟩ := hp
          have h1 := ih r1 hr.1 s p1 hp1
          have h2 := ih r2 hr.2 (s.drop p1.1) q hq
          simp only [h1, h2, shiftCap, combCap]
      | alt r1 r2 =>
          simp only [GrpFree, Bool.and_eq_true] at hr
          simp only [mAllF, List.mem_append] at hp
          cases hp with
          | inl h => exact ih r1 hr.1 s p h
          | inr h => exact ih r2 hr.2 s p h
      | star r1 lz =>
          simp only [GrpFree] at hr
          simp only [mAllF] at hp
          have hmore : ∀ q ∈ (mAllF f r1 s).flatMap (fun p =>
              if p.1 = 0 then []
              else (mAllF f (.star r1 lz) (s.drop p.1)).map fun q =>
                (p.1 + q.1, combCap p.2 (shiftCap p.1 q.2))),
              q.2 = Option.none := by
            intro q hq
            simp only [List.mem_flatMap] at hq
            obtain ⟨p1, hp1, hq⟩ := hq
            split at hq
            · simp at hq
            · simp only [List.mem_map] at hq
              obtain ⟨q2, hq2, rfl⟩ := hq
              have h1 := ih r1 hr s p1 hp1
              have h2 := ih (.star r1 lz) (by simpa [GrpFree] using hr)
                (s.drop p1.1) q2 hq2
              simp only [h1, h2, shiftCap, combCap]
          split at hp
          · cases hp with
            | head => rfl
            | tail _ h => exact hmore p h
          · rcases List.mem_append.mp hp with h | h
            · exact hmore p h
            · simp only [List.mem_singleton] at h
              simp [h]
      | grp r1 => simp [GrpFree] at hr
      | look r1 =>
          simp only [GrpFree] at hr
          simp only [mAllF] at hp
          cases hl : mAllF f r1 s with
          | nil =>
              rw [hl] at hp
              simp at hp
          | cons p1 rest =>
              rw [hl] at hp
              simp only [List.mem_singleton] at hp
              have hnone := ih r1 hr s p1 (by rw [hl]; exact List.mem_cons_self p1 rest)
              simp [hp, hnone]

/-- For a pattern with no capture group inside a lookahead, the
captured span of group 1 lies within the consumed prefix. -/
theorem mAllF_cap : ∀ (f : Nat) (r : Regex), NoGroupInLook r = true →
    ∀ (s : List Char), ∀ p ∈ mAllF f r s, ∀ a b, p.2 = some (a, b) →
      a ≤ b ∧ b ≤ p.1 := by
  intro f
  induction f with
  | zero => intro r _ s p hp; simp [mAllF] at hp
  | succ f ih =>
      intro r hr s p hp a b hab
      cases r with
      | eps =>
          simp only [mAllF, List.mem_singleton] at hp
          simp [hp] at hab
      | chr c =>
          cases s with
          | nil => simp [mAllF] at hp
          | cons x t =>
              simp only [mAllF] at hp
              split at hp <;> simp_all
      | anyc =>
          cases s with
          | nil => simp [mAllF] at hp
          | cons x t =>
              simp only [mAllF] at hp
              split at hp <;> simp_all
      | cat r1 r2 =>
          simp only [NoGroupInLook, Bool.and_eq_true] at hr
          simp only [mAllF, List.mem_flatMap, List.mem_map] at hp
          obtain ⟨p1, hp1, q, hq, rfl⟩ := hp
          simp only [] at hab
          cases hq2 : q.2 with
          | none =>
              rw [hq2] at hab
              simp only [shiftCap, combCap] at hab
              have := ih r1 hr.1 s p1 hp1 a b hab
              simp only []
              omega
          | some c2 =>
              rw [hq2] at hab
              simp only [shiftCap, combCap] at hab
              obtain ⟨rfl, rfl⟩ : p1.1 + c2.1 = a ∧ p1.1 + c2.2 = b := by
                cases hab' : hab
                simp
              have := ih r2 hr.2 (s.drop p1.1) q hq c2.1 c2.2 (by rw [hq2])
              simp only []
              omega
      | alt r1 r2 =>
          simp only [NoGroupInLook, Bool.and_eq_true] at hr
          simp only [mAllF, List.mem_append] at hp
          cases hp with
          | inl h => exact ih r1 hr.1 s p h a b hab
          | inr h => exact ih r2 hr.2 s p h a b hab
      | star r1 lz =>
          simp only [NoGroupInLook] at hr
          simp only [mAllF] at hp
          have hmore : ∀ q ∈ (mAllF f r1 s).flatMap (fun p =>
              if p.1 = 0 then []
              else (mAllF f (.star r1 lz) (s.drop p.1)).map fun q =>
                (p.1 + q.1, combCap p.2 (shiftCap p.1 q.2))),
              q.2 = some (a, b) → a ≤ b ∧ b ≤ q.1 := by
            intro q hq hab'
            simp only [List.mem_flatMap] at hq
            obtain ⟨p1, hp1, hq⟩ := hq
            split at hq
            · simp at hq
            · simp only [List.mem_map] at hq
              obtain ⟨q2, hq2, rfl⟩ := hq
              simp only [] at hab'
              cases hq22 : q2.2 with
              | none =>
                  rw [hq22] at hab'
                  simp only [shiftCap, combCap] at hab'
                  have := ih r1 hr s p1 hp1 a b hab'
                  simp only []
                  omega
              | some c2 =>
                  rw [hq22] at hab'
                  simp only [shiftCap, combCap] at hab'
                  obtain ⟨rfl, rfl⟩ : p1.1 + c2.1 = a ∧ p1.1 + c2.2 = b := by
                    cases hab'
                    simp
                  have := ih (.star r1 lz) (by simpa [NoGroupInLook] using hr)
                    (s.drop p1.1) q2 hq2 c2.1 c2.2 (by rw [hq22])
                  simp only []
                  omega
          split at hp
          · cases hp with
            | head => simp at hab
            | tail _ h => exact hmore p h hab
          · rcases List.mem_append.mp hp with h | h
            · exact hmore p h hab
            · simp only [List.mem_singleton] at h
              simp [h] at hab
      | grp r1 =>
          simp only [mAllF, List.mem_map] at hp
          obtain ⟨p1, hp1, rfl⟩ := hp
          simp only [Option.some.injEq, Prod.mk.injEq] at hab
          obtain ⟨rfl, rfl⟩ := hab
          exact ⟨Nat.zero_le _, le_refl _⟩
      | look r1 =>
          simp only [NoGroupInLook] at hr
          simp only [mAllF] at hp
          cases hl : mAllF f r1 s with
          | nil =>
              rw [hl] at hp
              simp at hp
          | cons p1 rest =>
              rw [hl] at hp
              simp only [List.mem_singleton] at hp
              have hnone := mAllF_grpFree f r1 hr s p1
                (by rw [hl]; exact List.mem_cons_self p1 rest)
              rw [hp] at hab
              simp [hnone] at hab

/-- The global scan produces an ordered, non-overlapping, in-bounds match list. -/
theorem scanAll_ord (r : Regex) (text : List Char) :
    ∀ (f pos : Nat), matchesOrd pos text.length (scanAll r text f pos) = true := by
  intro f
  induction f with
  | zero => intro pos; rfl
  | succ f ih =>
      intro pos
      simp only [scanAll]
      split
      · rfl
      · rename_i hpos
        have hposle : pos ≤ text.length := Nat.le_of_not_lt hpos
        cases hl : mAll r (text.drop pos) with
        | nil =>
            simp only [hl, List.head?_nil]
            exact matchesOrd_mono (Nat.le_succ pos) (ih (pos + 1))
        | cons q t =>
            have hmem : q ∈ mAll r (text.drop pos) := by
              rw [hl]; exact List.mem_cons_self q t
            have hlen := mAllF_len (mAllFuel r (text.drop pos)) r (text.drop pos) q hmem
            simp only [List.length_drop] at hlen
            simp only [hl, List.head?_cons]
            split
            · simp only [matchesOrd, Bool.and_eq_true, decide_eq_true_eq]
              refine ⟨⟨⟨le_refl pos, by omega⟩, by omega⟩, ?_⟩
              exact matchesOrd_mono (by omega) (ih (pos + 1))
            · simp only [matchesOrd, Bool.and_eq_true, decide_eq_true_eq]
              refine ⟨⟨⟨le_refl pos, by omega⟩, by omega⟩, ?_⟩
              exact ih (pos + q.1)
/-- For a pattern with no capture group inside a lookahead, every
global match's captured span lies within the match. -/
theorem scanAll_cap (r : Regex) (hr : NoGroupInLook r = true) (text : List Char) :
    ∀ (f pos : Nat), ∀ m ∈ scanAll r text f pos, capWithin m = true := by
  intro f
  induction f with
  | zero => intro pos m hm; simp [scanAll] at hm
  | succ f ih =>
      intro pos m hm
      simp only [scanAll] at hm
      split at hm
      · simp at hm
      · cases hl : mAll r (text.drop pos) with
        | nil =>
            rw [hl] at hm
            simp only [List.head?_nil] at hm
            exact ih (pos + 1) m hm
        | cons q t =>
            have hmem : q ∈ mAll r (text.drop pos) := by
              rw [hl]; exact List.mem_cons_self q t
            rw [hl] at hm
            simp only [List.head?_cons] at hm
            have hfirst : capWithin ⟨pos, pos + q.1, shiftCap pos q.2⟩ = true := by
              cases hq2 : q.2 with
              | none => simp [capWithin, shiftCap, hq2]
              | some c =>
                  have := mAllF_cap (mAllFuel r (text.drop pos)) r hr
                    (text.drop pos) q hmem c.1 c.2 (by rw [hq2])
                  simp only [capWithin, shiftCap, hq2, Bool.and_eq_true,
                    decide_eq_true_eq]
                  omega
            split at hm
            · rcases List.mem_cons.mp hm with rfl | hm'
              · exact hfirst
              · exact ih (pos + 1) m hm'
            · rcases List.mem_cons.mp hm with rfl | hm'
              · exact hfirst
              · exact ih (pos + q.1) m hm'

/-- The `lastIndex` walk of the preview builds a chained span list from
the walk's start to the end of the text. -/
theorem buildSegs_chain (text : List Char) :
    ∀ (ms : List MatchInfo) (last : Nat), last ≤ text.length →
      matchesOrd last text.length ms = true →
      (∀ m ∈ ms, capWithin m = true) →
      chainFromB last ((buildSegs text last ms).map Seg.span) text.length = true := by
  intro ms
  induction ms with
  | nil =>
      intro last hle _ _
      simp only [buildSegs]
      split
      · simp [chainFromB, Seg.span, hle]
      · rename_i h
        have heq : last = text.length := by omega
        simp [chainFromB, heq]
  | cons m t ih =>
      intro last hle hord hcap
      simp only [matchesOrd, Bool.and_eq_true, decide_eq_true_eq] at hord
      obtain ⟨⟨⟨h1, h2⟩, h3⟩, h4⟩ := hord
      have hcapm := hcap m (List.mem_cons_self m t)
      have hsp : last ≤ (m.cap.getD (m.start, m.stop)).1 ∧
          (m.cap.getD (m.start, m.stop)).1 ≤ (m.cap.getD (m.start, m.stop)).2 ∧
          (m.cap.getD (m.start, m.stop)).2 ≤ m.stop := by
        cases hc : m.cap with
        | none => simp only [hc, Option.getD_none]; omega
        | some c =>
            simp only [capWithin, hc, Bool.and_eq_true, decide_eq_true_eq] at hcapm
            simp only [hc, Option.getD_some]
            omega
      have hrec := ih (m.cap.getD (m.start, m.stop)).2 (by omega)
        (matchesOrd_mono (by omega) h4)
        (fun m' hm' => hcap m' (List.mem_cons_of_mem m hm'))
      simp only [buildSegs]
      split
      · rename_i hgt
        simp only [List.cons_append, List.nil_append, List.map_cons,
          chainFromB, Seg.span, Bool.and_eq_true, beq_iff_eq, decide_eq_true_eq]
        refine ⟨⟨?_, ?_⟩, ⟨?_, ?_⟩, hrec⟩ <;> first | trivial | omega
      · rename_i hngt
        have heq : (m.cap.getD (m.start, m.stop)).1 = last := by omega
        simp only [List.nil_append, List.map_cons, chainFromB, Seg.span,
          Bool.and_eq_true, beq_iff_eq, decide_eq_true_eq]
        exact ⟨⟨heq, by omega⟩, hrec⟩

/-- Partition of the preview segmentation for patterns with no capture
group inside a lookahead: the segment spans chain over the whole text
with no gaps and no overlaps, and the segment texts concatenate back to
the input. -/
theorem previewSegs_partition (r : Regex) (text : List Char)
    (hr : NoGroupInLook r = true) :
    chainFromB 0 ((previewSegs r text).map Seg.span) text.length = true ∧
    ((previewSegs r text).map (segText text)).flatten = text := by
  have hchain : chainFromB 0 ((previewSegs r text).map Seg.span) text.length = true := by
    unfold previewSegs
    split
    · simp [chainFromB, Seg.span]
    · exact buildSegs_chain text (jsMatchAll r text) 0 (Nat.zero_le _)
        (scanAll_ord r text (text.length + 2) 0)
        (fun m hm => scanAll_cap r hr text (text.length + 2) 0 m hm)
  refine ⟨hchain, ?_⟩
  have hmap : (previewSegs r text).map (segText text) =
      ((previewSegs r text).map Seg.span).map (fun p => listSlice text p.1 p.2) := by
    simp [List.map_map, segText, Function.comp]
  rw [hmap, flatten_slices_of_chain text _ hchain, listSlice_full]
/-! ## Structure of the auto-detect split -/

theorem markerAt_nil : markerAt [] = false := rfl

theorem mem_splitPoints {text : List Char} {i : Nat} :
    i ∈ splitPoints text ↔ i < text.length ∧ isSplitPoint text i = true := by
  simp [splitPoints, List.mem_filter, List.mem_range, and_comm]

/-- A split point always lies strictly inside the text: a marker needs
at least one character after the offset. -/
theorem isSplitPoint_lt {text : List Char} {i : Nat}
    (h : isSplitPoint text i = true) : i < text.length := by
  by_contra hge
  have hdrop : text.drop i = [] := List.drop_eq_nil_of_le (Nat.le_of_not_lt hge)
  simp only [isSplitPoint, Bool.and_eq_true] at h
  rw [hdrop, markerAt_nil] at h
  simp at h

/-- Membership in the split-point list is exactly the split-point
test: offset strictly positive, just after a line terminator, and at
the start of a marker. -/
theorem splitPoints_spec (text : List Char) (i : Nat) :
    i ∈ splitPoints text ↔ isSplitPoint text i = true := by
  rw [mem_splitPoints]
  exact ⟨fun h => h.2, fun h => ⟨isSplitPoint_lt h, h⟩⟩

theorem splitPoints_sorted (text : List Char) :
    (splitPoints text).Pairwise (· < ·) :=
  (List.pairwise_lt_range text.length).filter _

/-- Ascending boundaries with all intermediate points between `a` and
`b` yield a `≤`-chain from `a` through the boundaries to `b`. -/
theorem chain_le_of_sorted_bounded :
    ∀ (pts : List Nat) (a b : Nat), a ≤ b →
      pts.Pairwise (· < ·) → (∀ x ∈ pts, a ≤ x ∧ x ≤ b) →
      List.Chain (· ≤ ·) a (pts ++ [b]) := by
  intro pts
  induction pts with
  | nil => intro a b hab _ _; exact List.Chain.cons hab List.Chain.nil
  | cons p ps ih =>
      intro a b hab hp hx
      have hmem := hx p (List.mem_cons_self p ps)
      refine List.Chain.cons hmem.1 ?_
      have hp' := List.pairwise_cons.mp hp
      exact ih p b hmem.2 hp'.2 fun x hxm =>
        ⟨Nat.le_of_lt (hp'.1 x hxm), (hx x (List.mem_cons_of_mem p hxm)).2⟩

/-- A `≤`-chain over boundaries gives a chained span list for the
zipped consecutive boundary pairs. -/
theorem chainFromB_zip_boundaries :
    ∀ (pts : List Nat) (a b : Nat), List.Chain (· ≤ ·) a (pts ++ [b]) →
      chainFromB a ((a :: pts).zip (pts ++ [b])) b = true := by
  intro pts
  induction pts with
  | nil =>
      intro a b h
      rcases h with _ | ⟨hab, _⟩
      simp [chainFromB, hab]
  | cons p ps ih =>
      intro a b h
      rcases h with _ | ⟨hap, h'⟩
      simp only [List.cons_append, List.zip_cons_cons, chainFromB,
        Bool.and_eq_true, beq_iff_eq, decide_eq_true_eq]
      refine ⟨⟨?_, hap⟩, ih p b h'⟩
      trivial

/-- The boundary spans of the auto-detect split chain from `0` to the
text's length. -/
theorem autoChunks_chain (text : List Char) :
    chainFromB 0 ((0 :: splitPoints text).zip (splitPoints text ++ [text.length]))
      text.length = true := by
  apply chainFromB_zip_boundaries
  apply chain_le_of_sorted_bounded _ _ _ (Nat.zero_le _) (splitPoints_sorted text)
  intro x hx
  exact ⟨Nat.zero_le x, Nat.le_of_lt (mem_splitPoints.mp hx).1⟩

/-- The auto-detect split loses nothing: its chunks concatenate, in
order, back to the whole input text. -/
theorem autoChunks_flatten (text : List Char) :
    (autoChunks text).flatten = text := by
  unfold autoChunks
  rw [flatten_slices_of_chain text _ (autoChunks_chain text), listSlice_full]

/-! ## Non-whitespace content through flatten and join -/

theorem hasNonWS_flatten_iff {l : List (List Char)} :
    hasNonWS l.flatten = true ↔ ∃ c ∈ l, hasNonWS c = true := by
  simp [hasNonWS, List.any_eq_true, List.mem_flatten]

theorem hasNonWS_append {a b : List Char} :
    hasNonWS (a ++ b) = (hasNonWS a || hasNonWS b) := by
  simp [hasNonWS, List.any_append]

/-- A join of chunks, one of which has non-whitespace content, has
non-whitespace content. -/
theorem hasNonWS_joinBlank :
    ∀ (ms : List (List Char)), (∃ c ∈ ms, hasNonWS c = true) →
      hasNonWS (joinBlank ms) = true := by
  intro ms
  induction ms with
  | nil => rintro ⟨c, hc, _⟩; simp at hc
  | cons m t ih =>
      rintro ⟨c, hc, hcw⟩
      cases t with
      | nil =>
          simp only [List.mem_singleton] at hc
          subst hc
          simpa [joinBlank, List.intercalate] using hcw
      | cons m' t' =>
          have hstep : joinBlank (m :: m' :: t') =
              m ++ ['\n', '\n'] ++ joinBlank (m' :: t') := by
            simp [joinBlank, List.intercalate, List.intersperse_cons_cons]
          rw [hstep, hasNonWS_append, hasNonWS_append]
          rcases List.mem_cons.mp hc with rfl | hc'
          · simp [hcw]
          · have := ih ⟨c, hc', hcw⟩
            simp [this]

/-- The processed text of the auto branch keeps non-whitespace content
whenever the input has any. -/
theorem autoExtract_nonWS {input : List Char} (h : hasNonWS input = true) :
    hasNonWS (autoExtract input).1 = true := by
  unfold autoExtract
  split
  · rename_i hlen
    rcases List.exists_mem_of_length_pos hlen with ⟨c, hc⟩
    exact hasNonWS_joinBlank _ ⟨c, hc, (List.mem_filter.mp hc).2⟩
  · exact h


/-! ## Helper lemmas for the claim theorems -/

theorem effectStep_prevLoading (jsonOk : List Char → Bool) (st : EffectState)
    (out : List Char) (fmt : OutputFormat) (ld : Bool) :
    (effectStep jsonOk st out fmt ld).1.prevLoading = ld := by
  obtain ⟨prev, val⟩ := st
  cases prev <;> cases ld <;> cases out <;> simp [effectStep]

theorem effectStep_flag (jsonOk : List Char → Bool) (st : EffectState)
    (out : List Char) (fmt : OutputFormat) (ld : Bool) :
    (effectStep jsonOk st out fmt ld).2 = (st.prevLoading && !ld && !out.isEmpty) := by
  obtain ⟨prev, val⟩ := st
  cases prev <;> cases ld <;> cases out <;> simp [effectStep]

theorem runEffect_count (jsonOk : List Char → Bool) :
    ∀ (trace : List (List Char × OutputFormat × Bool)) (st : EffectState),
      (runEffect jsonOk st trace).2 = countFinishes st.prevLoading trace := by
  intro trace
  induction trace with
  | nil => intro st; rfl
  | cons x t ih =>
      intro st
      obtain ⟨out, fmt, ld⟩ := x
      simp only [runEffect, countFinishes]
      rw [ih, effectStep_prevLoading, effectStep_flag]

theorem effectStep_reset (jsonOk : List Char → Bool) (st : EffectState)
    (out : List Char) (fmt : OutputFormat) (ld : Bool)
    (h : ld = true ∨ out = []) :
    (effectStep jsonOk st out fmt ld).1.validation = idleV := by
  obtain ⟨prev, val⟩ := st
  rcases h with rfl | rfl
  · cases prev <;> simp [effectStep]
  · cases prev <;> cases ld <;> simp [effectStep]

theorem effectStep_computes (jsonOk : List Char → Bool) (st : EffectState)
    (out : List Char) (fmt : OutputFormat) (ld : Bool)
    (h : (effectStep jsonOk st out fmt ld).2 = true) :
    (effectStep jsonOk st out fmt ld).1.validation = validateOutput jsonOk fmt out := by
  obtain ⟨prev, val⟩ := st
  cases prev <;> cases ld <;> cases out <;> simp_all [effectStep]

theorem handleGenerate_offline (input : List Char) (method : ExtractionMethod)
    (pattern : List Char) (compiled : Option Regex) (q : List Char) :
    handleGenerate false input method pattern compiled q = .abort offlineMsg := rfl

theorem handleGenerate_emptyInput (input : List Char) (method : ExtractionMethod)
    (pattern : List Char) (compiled : Option Regex) (q : List Char)
    (h : hasNonWS input = false) :
    handleGenerate true input method pattern compiled q = .abort enterTextMsg := by
  simp [handleGenerate, h]

theorem handleGenerate_regex_none (input pattern q : List Char)
    (hin : hasNonWS input = true) (hpat : hasNonWS pattern = true) :
    handleGenerate true input .regex pattern Option.none q = .abort invalidRegexMsg := by
  simp [handleGenerate, hin, hpat]

theorem handleGenerate_regex_some (input pattern q : List Char) (r : Regex)
    (hin : hasNonWS input = true) (hpat : hasNonWS pattern = true) :
    handleGenerate true input .regex pattern (some r) q =
      match regexExtract r input with
      | Option.none => .abort noMatchesMsg
      | some processed =>
          if hasNonWS processed = false then .abort emptyProcessedMsg
          else .proceed processed Option.none := by
  cases hre : regexExtract r input with
  | none => simp [handleGenerate, hin, hpat, hre]
  | some processed =>
      by_cases hp : hasNonWS processed = true
      · simp [handleGenerate, hin, hpat, hre, hp]
      · simp only [Bool.not_eq_true] at hp
        simp [handleGenerate, hin, hpat, hre, hp]

theorem handleGenerate_regex_blank (input pattern q : List Char)
    (compiled : Option Regex)
    (hin : hasNonWS input = true) (hpat : hasNonWS pattern = false) :
    handleGenerate true input .regex pattern compiled q = .proceed input Option.none := by
  simp [handleGenerate, hin, hpat]

theorem handleGenerate_auto (input pattern q : List Char) (compiled : Option Regex)
    (hin : hasNonWS input = true) :
    handleGenerate true input .auto pattern compiled q =
      .proceed (autoExtract input).1 (autoExtract input).2 := by
  have hne := autoExtract_nonWS hin
  simp [handleGenerate, hin, hne]

/-! ## Concrete instances used by the claim theorems -/

/-- The `bold` preset pattern of the input panel,
the abstract syntax of the pattern string of scenario B. -/
def boldPreset : Regex :=
  .cat (.chr '*') (.cat (.chr '*')
    (.cat (.grp (.star .anyc true)) (.cat (.chr '*') (.chr '*'))))

/-- The pattern `a(?=(b))|b`: a capture group inside a lookahead, whose
captured span escapes the whole-match span. -/
def lookPat : Regex :=
  .alt (.cat (.chr 'a') (.look (.grp (.chr 'b')))) (.chr 'b')

/-- The pattern `(a)(?=b)`: a lookahead with no capture group inside it
(the capture group stands outside), within the amended claim's scope. -/
def lookNoCapPat : Regex :=
  .cat (.grp (.chr 'a')) (.look (.chr 'b'))

/-- Options with the number-of-cards field set to the decimal
(non-integer) text `3.7`. -/
def opts37 : GenerationOptions :=
  ⟨"gemini-2.5-flash", .tsv, .basic, "3.7", .none, ""⟩

theorem regexExtract_of_nil {r : Regex} {input : List Char}
    (h : jsMatchAll r input = []) : regexExtract r input = Option.none := by
  simp [regexExtract, h]

/-! ## The claim theorems -/

/-- C1: for every pattern and text, the global matches are in order and
non-overlapping within the text, and whenever at least one match exists
the regex extraction returns the per-match selections (the first capture
group's text when it participated, else the whole match text) joined
with a blank-line separator; in particular for the bold pattern on
the text of scenario B the extraction yields two matches and the
processed text `foo`, blank line, `bar`. -/
theorem C1_regex_extraction :
    (∀ (r : Regex) (text : List Char),
        matchesOrd 0 text.length (jsMatchAll r text) = true)
    ∧ (∀ (r : Regex) (text : List Char), jsMatchAll r text ≠ [] →
        regexExtract r text =
          some (joinBlank ((jsMatchAll r text).map (selText text))))
    ∧ (jsMatchAll boldPreset "**foo** and **bar**".toList).length = 2
    ∧ handleGenerate true "**foo** and **bar**".toList .regex
        "\\*\\*(.*?)\\*\\*".toList (some boldPreset) []
        = .proceed "foo\n\nbar".toList Option.none := by
  refine ⟨fun r text => scanAll_ord r text _ 0, fun r text h => ?_, by decide, by decide⟩
  simp [regexExtract, List.length_pos.mpr h]

/-- C1 witness: the universal join equation applied to scenario B. -/
theorem C1_regex_extraction_witness :
    jsMatchAll boldPreset "**foo** and **bar**".toList ≠ [] ∧
    regexExtract boldPreset "**foo** and **bar**".toList =
      some (joinBlank ((jsMatchAll boldPreset "**foo** and **bar**".toList).map
        (selText "**foo** and **bar**".toList))) :=
  ⟨by decide, C1_regex_extraction.2.1 boldPreset "**foo** and **bar**".toList (by decide)⟩

/-- C2 (amended): for every text and every pattern with no capture
group inside a lookahead — lookaheads themselves are allowed — the
preview segments partition the text with no gaps and no overlaps:
the spans chain from offset 0 to the text's length, and the segment
texts concatenate back to the input exactly.  (The amendment excludes
only capture groups inside lookaheads, whose captured span escapes the
whole-match span; see the counterexample.) -/
theorem C2_preview_partition (r : Regex) (text : List Char)
    (hr : NoGroupInLook r = true) :
    chainFromB 0 ((previewSegs r text).map Seg.span) text.length = true ∧
    ((previewSegs r text).map (segText text)).flatten = text :=
  previewSegs_partition r text hr

/-- C2 counterexample: for the pattern `a(?=(b))|b` on the text `ab`,
the highlighted spans overlap and the concatenated segment texts spell
`abb`, not the input — the claimed partition fails for patterns with a
capture group inside a lookahead. -/
theorem C2_preview_counterexample :
    ((previewSegs lookPat "ab".toList).map (segText "ab".toList)).flatten
        = "abb".toList ∧
    ((previewSegs lookPat "ab".toList).map (segText "ab".toList)).flatten
        ≠ "ab".toList := by
  exact ⟨by decide, by decide⟩

/-- C2 witness: the partition theorem applied to the bold preset on the
scenario-B text, and to the pattern `(a)(?=b)` on `ab` — a pattern that
contains a lookahead but no capture group inside one. -/
theorem C2_preview_partition_witness :
    (chainFromB 0 ((previewSegs boldPreset "**foo** and **bar**".toList).map Seg.span)
      ("**foo** and **bar**".toList).length = true ∧
    ((previewSegs boldPreset "**foo** and **bar**".toList).map
      (segText "**foo** and **bar**".toList)).flatten = "**foo** and **bar**".toList) ∧
    (chainFromB 0 ((previewSegs lookNoCapPat "ab".toList).map Seg.span)
      ("ab".toList).length = true ∧
    ((previewSegs lookNoCapPat "ab".toList).map
      (segText "ab".toList)).flatten = "ab".toList) :=
  ⟨C2_preview_partition boldPreset "**foo** and **bar**".toList (by decide),
   C2_preview_partition lookNoCapPat "ab".toList (by decide)⟩

/-- C3: the auto split cuts exactly at the strictly positive offsets
that start a line beginning with a marker (keeping the marker: the
chunks concatenate back to the input, so each chunk runs up to the next
marker); whitespace-only chunks are dropped and the rest joined with a
blank-line separator; with zero chunks the whole original text is kept
with the non-fatal diagnostic; the auto path always proceeds to
generation; and on `Q: What is 2+2?\nA: 4` the processed text equals
the original. -/
theorem C3_auto_extraction :
    (∀ text : List Char, (autoChunks text).flatten = text)
    ∧ (∀ (text : List Char) (i : Nat),
        i ∈ splitPoints text ↔ isSplitPoint text i = true)
    ∧ (∀ text : List Char, (autoChunks text).filter hasNonWS ≠ [] →
        autoExtract text =
          (joinBlank ((autoChunks text).filter hasNonWS), Option.none))
    ∧ (∀ text : List Char, (autoChunks text).filter hasNonWS = [] →
        autoExtract text = (text, some autoNoMarkersMsg))
    ∧ (∀ (input pattern q : List Char) (compiled : Option Regex),
        hasNonWS input = true →
        handleGenerate true input .auto pattern compiled q =
          .proceed (autoExtract input).1 (autoExtract input).2)
    ∧ handleGenerate true "Q: What is 2+2?\nA: 4".toList .auto [] Option.none []
        = .proceed "Q: What is 2+2?\nA: 4".toList Option.none := by
  refine ⟨autoChunks_flatten, splitPoints_spec, fun text h => ?_, fun text h => ?_,
    fun input pattern q compiled hin => handleGenerate_auto input pattern q compiled hin,
    by decide⟩
  · simp [autoExtract, List.length_pos.mpr h]
  · simp [autoExtract, h]

/-- C3 witness: the always-proceeds equation applied to scenario A. -/
theorem C3_auto_extraction_witness :
    hasNonWS "Q: What is 2+2?\nA: 4".toList = true ∧
    handleGenerate true "Q: What is 2+2?\nA: 4".toList .auto [] Option.none [] =
      .proceed (autoExtract "Q: What is 2+2?\nA: 4".toList).1
        (autoExtract "Q: What is 2+2?\nA: 4".toList).2 :=
  ⟨by decide, C3_auto_extraction.2.2.2.2.1 "Q: What is 2+2?\nA: 4".toList []
    [] Option.none (by decide)⟩

theorem bne_true {b : Bool} (h : b = false) : ¬(b = true) := by simp [h]

theorem mapStreamError_some (m : List Char) :
    mapStreamError (some m) =
      if containsSeq "API key not valid".toList m = true then
        "API_KEY_INVALID".toList
      else if (containsSeq "RESOURCE_EXHAUSTED".toList m ||
          containsSeq "rate limit".toList m) = true then
        "RATE_LIMIT_EXCEEDED".toList
      else if (containsSeq "candidate".toList m &&
          containsSeq "was blocked".toList m) = true then
        "CONTENT_BLOCKED".toList
      else genericErrMsg := rfl

/-- C4: every failure is mapped to exactly one of the four fixed error
messages — the raw failure never propagates — and for a failure carrying
a message the chosen kind is determined by case-sensitive substring
containment with the if/else precedence of the source: the invalid-key
test first, then the rate-limit tests, then the content-blocked pair,
else the generic fallback (also used for non-`Error` throwables). -/
theorem C4_error_mapping :
    ∀ e : Option (List Char),
      (mapStreamError e = "API_KEY_INVALID".toList ∨
        mapStreamError e = "RATE_LIMIT_EXCEEDED".toList ∨
        mapStreamError e = "CONTENT_BLOCKED".toList ∨
        mapStreamError e = genericErrMsg)
      ∧ (e = Option.none → mapStreamError e = genericErrMsg)
      ∧ (∀ m, e = some m →
          ((mapStreamError e = "API_KEY_INVALID".toList ↔
              containsSeq "API key not valid".toList m = true)
           ∧ (mapStreamError e = "RATE_LIMIT_EXCEEDED".toList ↔
              (containsSeq "API key not valid".toList m = false ∧
                (containsSeq "RESOURCE_EXHAUSTED".toList m = true ∨
                 containsSeq "rate limit".toList m = true)))
           ∧ (mapStreamError e = "CONTENT_BLOCKED".toList ↔
              (containsSeq "API key not valid".toList m = false ∧
               containsSeq "RESOURCE_EXHAUSTED".toList m = false ∧
               containsSeq "rate limit".toList m = false ∧
               containsSeq "candidate".toList m = true ∧
               containsSeq "was blocked".toList m = true)))) := by
  have d12 : "API_KEY_INVALID".toList ≠ "RATE_LIMIT_EXCEEDED".toList := by decide
  have d13 : "API_KEY_INVALID".toList ≠ "CONTENT_BLOCKED".toList := by decide
  have d14 : "API_KEY_INVALID".toList ≠ genericErrMsg := by decide
  have d23 : "RATE_LIMIT_EXCEEDED".toList ≠ "CONTENT_BLOCKED".toList := by decide
  have d24 : "RATE_LIMIT_EXCEEDED".toList ≠ genericErrMsg := by decide
  have d34 : "CONTENT_BLOCKED".toList ≠ genericErrMsg := by decide
  intro e
  cases e with
  | none =>
      exact ⟨Or.inr (Or.inr (Or.inr rfl)), fun _ => rfl,
        fun m hm => Option.noConfusion hm⟩
  | some m =>
      by_cases hA : containsSeq "API key not valid".toList m = true
      · have hmap : mapStreamError (some m) = "API_KEY_INVALID".toList := by
          rw [mapStreamError_some, if_pos hA]
        refine ⟨Or.inl hmap, fun h => Option.noConfusion h, fun m' hm' => ?_⟩
        injection hm' with hm'
        subst hm'
        rw [hmap]
        exact ⟨⟨fun _ => hA, fun _ => rfl⟩,
          ⟨fun h => absurd h d12, fun hc => absurd hA (bne_true hc.1)⟩,
          ⟨fun h => absurd h d13, fun hc => absurd hA (bne_true hc.1)⟩⟩
      · rw [Bool.not_eq_true] at hA
        by_cases hRE : containsSeq "RESOURCE_EXHAUSTED".toList m = true
        · have hmap : mapStreamError (some m) = "RATE_LIMIT_EXCEEDED".toList := by
            rw [mapStreamError_some, if_neg (bne_true hA),
              if_pos (by rw [hRE]; exact Bool.true_or _)]
          refine ⟨Or.inr (Or.inl hmap), fun h => Option.noConfusion h, fun m' hm' => ?_⟩
          injection hm' with hm'
          subst hm'
          rw [hmap]
          exact ⟨⟨fun h => absurd h.symm d12, fun hc => absurd hc (bne_true hA)⟩,
            ⟨fun _ => ⟨hA, Or.inl hRE⟩, fun _ => rfl⟩,
            ⟨fun h => absurd h d23, fun hc => absurd hRE (bne_true hc.2.1)⟩⟩
        · rw [Bool.not_eq_true] at hRE
          by_cases hRL : containsSeq "rate limit".toList m = true
          · have hmap : mapStreamError (some m) = "RATE_LIMIT_EXCEEDED".toList := by
              rw [mapStreamError_some, if_neg (bne_true hA),
                if_pos (by rw [hRL]; exact Bool.or_true _)]
            refine ⟨Or.inr (Or.inl hmap), fun h => Option.noConfusion h, fun m' hm' => ?_⟩
            injection hm' with hm'
            subst hm'
            rw [hmap]
            exact ⟨⟨fun h => absurd h.symm d12, fun hc => absurd hc (bne_true hA)⟩,
              ⟨fun _ => ⟨hA, Or.inr hRL⟩, fun _ => rfl⟩,
              ⟨fun h => absurd h d23, fun hc => absurd hRL (bne_true hc.2.2.1)⟩⟩
          · rw [Bool.not_eq_true] at hRL
            have hnor : ¬((containsSeq "RESOURCE_EXHAUSTED".toList m ||
                containsSeq "rate limit".toList m) = true) := by
              rw [hRE, hRL]
              decide
            by_cases hCa : containsSeq "candidate".toList m = true
            · by_cases hWb : containsSeq "was blocked".toList m = true
              · have hmap : mapStreamError (some m) = "CONTENT_BLOCKED".toList := by
                  rw [mapStreamError_some, if_neg (bne_true hA), if_neg hnor,
                    if_pos (by rw [hCa, hWb]; rfl)]
                refine ⟨Or.inr (Or.inr (Or.inl hmap)), fun h => Option.noConfusion h,
                  fun m' hm' => ?_⟩
                injection hm' with hm'
                subst hm'
                rw [hmap]
                exact ⟨⟨fun h => absurd h.symm d13, fun hc => absurd hc (bne_true hA)⟩,
                  ⟨fun h => absurd h.symm d23,
                   fun hc => hc.2.elim (fun h => absurd h (bne_true hRE))
                     (fun h => absurd h (bne_true hRL))⟩,
                  ⟨fun _ => ⟨hA, hRE, hRL, hCa, hWb⟩, fun _ => rfl⟩⟩
              · rw [Bool.not_eq_true] at hWb
                have hmap : mapStreamError (some m) = genericErrMsg := by
                  rw [mapStreamError_some, if_neg (bne_true hA), if_neg hnor,
                    if_neg (by rw [hWb, Bool.and_false]; exact Bool.false_ne_true)]
                refine ⟨Or.inr (Or.inr (Or.inr hmap)), fun h => Option.noConfusion h,
                  fun m' hm' => ?_⟩
                injection hm' with hm'
                subst hm'
                rw [hmap]
                exact ⟨⟨fun h => absurd h.symm d14, fun hc => absurd hc (bne_true hA)⟩,
                  ⟨fun h => absurd h.symm d24,
                   fun hc => hc.2.elim (fun h => absurd h (bne_true hRE))
                     (fun h => absurd h (bne_true hRL))⟩,
                  ⟨fun h => absurd h.symm d34,
                   fun hc => absurd hc.2.2.2.2 (bne_true hWb)⟩⟩
            · rw [Bool.not_eq_true] at hCa
              have hmap : mapStreamError (some m) = genericErrMsg := by
                rw [mapStreamError_some, if_neg (bne_true hA), if_neg hnor,
                  if_neg (by rw [hCa, Bool.false_and]; exact Bool.false_ne_true)]
              refine ⟨Or.inr (Or.inr (Or.inr hmap)), fun h => Option.noConfusion h,
                fun m' hm' => ?_⟩
              injection hm' with hm'
              subst hm'
              rw [hmap]
              exact ⟨⟨fun h => absurd h.symm d14, fun hc => absurd hc (bne_true hA)⟩,
                ⟨fun h => absurd h.symm d24,
                 fun hc => hc.2.elim (fun h => absurd h (bne_true hRE))
                   (fun h => absurd h (bne_true hRL))⟩,
                ⟨fun h => absurd h.symm d34,
                 fun hc => absurd hc.2.2.2.1 (bne_true hCa)⟩⟩

/-- C4 witness: the characterization applied to a concrete rate-limit
failure message. -/
theorem C4_error_mapping_witness :
    mapStreamError (some "the rate limit was hit".toList) =
      "RATE_LIMIT_EXCEEDED".toList :=
  (((C4_error_mapping (some "the rate limit was hit".toList)).2.2
      "the rate limit was hit".toList rfl).2.1).mpr
    ⟨by decide, Or.inr (by decide)⟩

/-- C5 (amended): for a generate request in regex mode whose pattern has
non-whitespace content, a failed compilation or a compiling pattern with
zero matches always aborts — with the invalid-pattern or no-matches
diagnostic when the earlier guards pass — generation never starts and
the previous output is untouched; and in every mode the output changes
only on a successful transition into the generating state, where it is
cleared.  (The amendment restricts the claim to patterns with
non-whitespace content: a whitespace-only pattern bypasses the regex
branch entirely, see the counterexample.) -/
theorem C5_regex_rejection :
    (∀ (online : Bool) (input pattern q prev : List Char) (compiled : Option Regex),
        hasNonWS pattern = true →
        (compiled = Option.none ∨ ∃ r, compiled = some r ∧ jsMatchAll r input = []) →
        (handleGenerate online input .regex pattern compiled q).isAbort = true ∧
        outputAfter (handleGenerate online input .regex pattern compiled q) prev = prev)
    ∧ (∀ (input pattern q : List Char),
        hasNonWS input = true → hasNonWS pattern = true →
        handleGenerate true input .regex pattern Option.none q = .abort invalidRegexMsg)
    ∧ (∀ (input pattern q : List Char) (r : Regex),
        hasNonWS input = true → hasNonWS pattern = true → jsMatchAll r input = [] →
        handleGenerate true input .regex pattern (some r) q = .abort noMatchesMsg)
    ∧ (∀ (online : Bool) (input pattern q prev : List Char)
        (method : ExtractionMethod) (compiled : Option Regex),
        outputAfter (handleGenerate online input method pattern compiled q) prev ≠ prev →
        (handleGenerate online input method pattern compiled q).isAbort = false ∧
        outputAfter (handleGenerate online input method pattern compiled q) prev = []) := by
  have habort : ∀ (input pattern q : List Char) (r : Regex),
      hasNonWS input = true → hasNonWS pattern = true → jsMatchAll r input = [] →
      handleGenerate true input .regex pattern (some r) q = .abort noMatchesMsg := by
    intro input pattern q r hin hpat hnil
    rw [handleGenerate_regex_some input pattern q r hin hpat, regexExtract_of_nil hnil]
  refine ⟨?_, fun input pattern q hin hpat =>
      handleGenerate_regex_none input pattern q hin hpat, habort, ?_⟩
  · intro online input pattern q prev compiled hpat hcomp
    cases online with
    | false =>
        rw [handleGenerate_offline]
        exact ⟨rfl, rfl⟩
    | true =>
        by_cases hin : hasNonWS input = true
        · rcases hcomp with rfl | ⟨r, rfl, hnil⟩
          · rw [handleGenerate_regex_none input pattern q hin hpat]
            exact ⟨rfl, rfl⟩
          · rw [habort input pattern q r hin hpat hnil]
            exact ⟨rfl, rfl⟩
        · rw [Bool.not_eq_true] at hin
          rw [handleGenerate_emptyInput input .regex pattern compiled q hin]
          exact ⟨rfl, rfl⟩
  · intro online input pattern q prev method compiled hne
    cases hG : handleGenerate online input method pattern compiled q with
    | abort msg => rw [hG] at hne; exact absurd rfl hne
    | proceed p w => exact ⟨rfl, rfl⟩

/-- C5 counterexample: the pattern consisting of a single space
compiles (to the one-character regex) and has zero matches in `abc`,
yet the request is not rejected: the whitespace-only pattern skips the
regex branch and generation proceeds with the unchanged input. -/
theorem C5_regex_rejection_counterexample :
    jsMatchAll (.chr ' ') "abc".toList = [] ∧
    handleGenerate true "abc".toList .regex " ".toList (some (.chr ' ')) []
      = .proceed "abc".toList Option.none := ⟨by decide, by decide⟩

/-- C5 witness: the abort property applied to a non-compiling pattern. -/
theorem C5_regex_rejection_witness :
    (handleGenerate true "x".toList .regex "a".toList Option.none []).isAbort = true ∧
    outputAfter (handleGenerate true "x".toList .regex "a".toList Option.none [])
      "old".toList = "old".toList :=
  C5_regex_rejection.1 true "x".toList "a".toList [] "old".toList Option.none
    (by decide) (Or.inl rfl)

/-- C6: csv validation yields `warning` exactly when some non-blank
line of the trimmed output fails the shape check (leading quote,
trailing quote, exactly two fields on the quote-comma-quote delimiter),
`valid` otherwise, vacuously `valid` with zero non-blank lines; and the
two-line scenario-D output yields `warning`. -/
theorem C6_csv_validation :
    (∀ (jsonOk : List Char → Bool) (out : List Char),
        ((validateOutput jsonOk .csv out).status = .warning ↔
          ∃ l ∈ nonBlankLines out, csvLineOk l = false)
        ∧ ((validateOutput jsonOk .csv out).status = .valid ↔
          ¬∃ l ∈ nonBlankLines out, csvLineOk l = false)
        ∧ (nonBlankLines out = [] → (validateOutput jsonOk .csv out).status = .valid))
    ∧ (∀ jsonOk : List Char → Bool,
        (validateOutput jsonOk .csv "\"a\",\"b\"\n\"c\"".toList).status = .warning) := by
  refine ⟨fun jsonOk out => ?_, fun jsonOk => rfl⟩
  by_cases h : (nonBlankLines out).any (fun l => !csvLineOk l) = true
  · have hex : ∃ l ∈ nonBlankLines out, csvLineOk l = false := by
      rcases List.any_eq_true.mp h with ⟨l, hl, hlf⟩
      exact ⟨l, hl, by simpa using hlf⟩
    have hpos : 0 < (nonBlankLines out).length := by
      rcases hex with ⟨l, hl, _⟩
      exact List.length_pos.mpr (List.ne_nil_of_mem hl)
    have hst : (validateOutput jsonOk .csv out).status = .warning := by
      simp [validateOutput, hpos, h]
    rw [hst]
    refine ⟨⟨fun _ => hex, fun _ => rfl⟩, ⟨fun hv => ?_, fun hne => ?_⟩, fun hnil => ?_⟩
    · exact absurd hv (by decide)
    · exact absurd hex hne
    · rw [hnil] at hpos
      simp at hpos
  · have hnex : ¬∃ l ∈ nonBlankLines out, csvLineOk l = false := by
      rintro ⟨l, hl, hlf⟩
      refine h (List.any_eq_true.mpr ⟨l, hl, ?_⟩)
      show (!csvLineOk l) = true
      rw [hlf]
      rfl
    have hst : (validateOutput jsonOk .csv out).status = .valid := by
      by_cases hpos : (nonBlankLines out).length > 0 <;> simp [validateOutput, hpos, h]
    rw [hst]
    exact ⟨⟨fun hv => absurd hv (by decide), fun hex => absurd hex hnex⟩,
      ⟨fun _ => hnex, fun _ => rfl⟩, fun _ => rfl⟩

/-- C6 witness: the warning characterization applied to scenario D. -/
theorem C6_csv_validation_witness :
    (validateOutput (fun _ => false) .csv "\"a\",\"b\"\n\"c\"".toList).status
      = .warning :=
  ((C6_csv_validation.1 (fun _ => false) "\"a\",\"b\"\n\"c\"".toList).1).mpr
    ⟨"\"c\"".toList, by decide, by decide⟩

/-- C7: over every trace of dependency changes, the validator is
invoked exactly once per finished generation — a run where the loading
flag transitions from true to false with non-empty accumulated output —
the invocation flag of a single effect run is exactly that transition
condition, the verdict resets to idle whenever the output is empty or a
new generation is loading, and a computing run stores exactly the
validator's verdict for the current format and output. -/
theorem C7_validation_timing :
    (∀ (jsonOk : List Char → Bool) (st : EffectState)
        (trace : List (List Char × OutputFormat × Bool)),
        (runEffect jsonOk st trace).2 = countFinishes st.prevLoading trace)
    ∧ (∀ (jsonOk : List Char → Bool) (st : EffectState) (out : List Char)
        (fmt : OutputFormat) (ld : Bool),
        (effectStep jsonOk st out fmt ld).2 = (st.prevLoading && !ld && !out.isEmpty))
    ∧ (∀ (jsonOk : List Char → Bool) (st : EffectState) (out : List Char)
        (fmt : OutputFormat) (ld : Bool), ld = true ∨ out = [] →
        (effectStep jsonOk st out fmt ld).1.validation = idleV)
    ∧ (∀ (jsonOk : List Char → Bool) (st : EffectState) (out : List Char)
        (fmt : OutputFormat) (ld : Bool),
        (effectStep jsonOk st out fmt ld).2 = true →
        (effectStep jsonOk st out fmt ld).1.validation = validateOutput jsonOk fmt out) :=
  ⟨fun jsonOk st trace => runEffect_count jsonOk trace st,
   fun jsonOk st out fmt ld => effectStep_flag jsonOk st out fmt ld,
   fun jsonOk st out fmt ld h => effectStep_reset jsonOk st out fmt ld h,
   fun jsonOk st out fmt ld h => effectStep_computes jsonOk st out fmt ld h⟩

/-- C7 witness: the reset property applied to a cleared output, and the
count over a concrete finished-generation trace. -/
theorem C7_validation_timing_witness :
    (effectStep (fun _ => true) ⟨true, idleV⟩ [] .csv false).1.validation = idleV :=
  C7_validation_timing.2.2.1 (fun _ => true) ⟨true, idleV⟩ [] .csv false (Or.inr rfl)

/-- C8 (amended): the extended-reasoning (thinking) budget of 32768 is
enabled exactly when the model identifier equals `gemini-2.5-pro`; for
every other identifier the configuration carries only the system
instruction.  (The amendment replaces the claimed suffix test, ends in
`-pro`, by exact equality; see the counterexample.) -/
theorem C8_thinking_config :
    (∀ (model si : String),
        (buildGenConfig model si).thinkingBudget.isSome = true ↔
          model = "gemini-2.5-pro")
    ∧ (∀ si : String, buildGenConfig "gemini-2.5-pro" si = ⟨si, some 32768⟩)
    ∧ (∀ (model si : String), model ≠ "gemini-2.5-pro" →
        buildGenConfig model si = ⟨si, Option.none⟩) := by
  refine ⟨fun model si => ?_, fun si => rfl, fun model si h => ?_⟩
  · unfold buildGenConfig
    by_cases h : model = "gemini-2.5-pro" <;> simp [h]
  · unfold buildGenConfig
    simp [h]

/-- C8 counterexample: the identifier `my-model-pro` ends in `-pro`,
yet its configuration enables no thinking budget — the code tests exact
equality with `gemini-2.5-pro`, not a suffix. -/
theorem C8_thinking_config_counterexample :
    endsWithL "-pro".toList "my-model-pro".toList = true ∧
    (buildGenConfig "my-model-pro" systemInstructionText).thinkingBudget
      = Option.none := ⟨by decide, by decide⟩

/-- C8 witness: the non-pro equation applied to the flash model. -/
theorem C8_thinking_config_witness :
    buildGenConfig "gemini-2.5-flash" systemInstructionText =
      ⟨systemInstructionText, Option.none⟩ :=
  C8_thinking_config.2.2 "gemini-2.5-flash" systemInstructionText (by decide)

set_option maxRecDepth 100000

/-- C9 (amended): the built prompt always contains the quantity
instruction as a contiguous block; that instruction is the exact-count
sentence `Generate exactly N flashcards.` whenever `parseInt` of the
number-of-cards field yields a value N greater than zero — including
non-integer fields such as `3.7`, whose leading integer part is used —
and the appropriate-number sentence when `parseInt` yields NaN or a
non-positive value.  (The amendment replaces the claimed condition,
field supplied as a positive integer, by the `parseInt` condition the
code applies; see the counterexample.) -/
theorem C9_quantity_instruction :
    (∀ (userInput : String) (options : GenerationOptions),
        ∃ u v, (createPromptParts userInput options).userContent =
          u ++ quantityInstruction options.numberOfCards ++ v)
    ∧ (∀ (s : String) (n : Int), jsParseInt s = some n → 0 < n →
        quantityInstruction s = "Generate exactly " ++ toString n ++ " flashcards.")
    ∧ (∀ s : String,
        (jsParseInt s = Option.none ∨ ∃ n, jsParseInt s = some n ∧ n ≤ 0) →
        quantityInstruction s = appropriateQuantity) := by
  refine ⟨fun userInput options => ?_, fun s n hp hn => ?_, fun s hp => ?_⟩
  · unfold createPromptParts
    split <;> exact ⟨_, _, rfl⟩
  · unfold quantityInstruction
    rw [hp]
    simp [hn]
  · unfold quantityInstruction
    rcases hp with hp | ⟨n, hp, hn⟩
    · rw [hp]
    · rw [hp]
      simp
      omega

/-- C9 counterexample: with the number-of-cards field `3.7` — not a
positive integer — the prompt carries the exact-count instruction
`Generate exactly 3 flashcards.` and not the appropriate-number
instruction the claim requires for that case. -/
theorem C9_quantity_instruction_counterexample :
    ("3.7".toList.all Char.isDigit) = false ∧
    quantityInstruction "3.7" = "Generate exactly 3 flashcards." ∧
    containsSeq "Generate exactly 3 flashcards.".toList
      ((createPromptParts "text" opts37).userContent).toList = true ∧
    containsSeq appropriateQuantity.toList
      ((createPromptParts "text" opts37).userContent).toList = false := by
  exact ⟨by decide, by decide, by decide, by decide⟩

/-- C9 witness: the containment and exact-count equations applied to
the field `5`. -/
theorem C9_quantity_instruction_witness :
    quantityInstruction "5" = "Generate exactly " ++ toString (5 : Int) ++ " flashcards." :=
  C9_quantity_instruction.2.1 "5" 5 (by decide) (by decide)

/-- C10: a regex-mode request whose pattern is empty or whitespace-only
skips extraction silently: the outcome never depends on the compilation
result, no abort occurs, and (when online with non-empty input) the raw
input text proceeds unchanged into generation with no diagnostic. -/
theorem C10_blank_pattern_bypass :
    (∀ (online : Bool) (input pattern q : List Char) (c1 c2 : Option Regex),
        hasNonWS pattern = false →
        handleGenerate online input .regex pattern c1 q =
          handleGenerate online input .regex pattern c2 q)
    ∧ (∀ (input pattern q : List Char) (compiled : Option Regex),
        hasNonWS pattern = false → hasNonWS input = true →
        handleGenerate true input .regex pattern compiled q =
          .proceed input Option.none) := by
  constructor
  · intro online input pattern q c1 c2 hpat
    cases online with
    | false => rw [handleGenerate_offline, handleGenerate_offline]
    | true =>
        by_cases hin : hasNonWS input = true
        · rw [handleGenerate_regex_blank input pattern q c1 hin hpat,
            handleGenerate_regex_blank input pattern q c2 hin hpat]
        · rw [Bool.not_eq_true] at hin
          rw [handleGenerate_emptyInput input .regex pattern c1 q hin,
            handleGenerate_emptyInput input .regex pattern c2 q hin]
  · intro input pattern q compiled hpat hin
    exact handleGenerate_regex_blank input pattern q compiled hin hpat

/-- C10 witness: the bypass applied to a two-space pattern with a
compilation result present. -/
theorem C10_blank_pattern_bypass_witness :
    handleGenerate true "abc".toList .regex "  ".toList (some (.chr 'z')) [] =
      .proceed "abc".toList Option.none :=
  C10_blank_pattern_bypass.2 "abc".toList "  ".toList [] (some (.chr 'z'))
    (by decide) (by decide)

end Ankicard
